import Mathlib

/-!
# Verification of the mako core against its specification

Shallow embedding of the transaction engine (`src/tx.c`), the BIP-152
compact-block codec (`src/bip152.c`) and the chain store
(`src/node/chaindb.c`).  Byte strings are `List Nat` (each element a byte
value).  The primitive codec library (integer/varint/slice readers and
writers) is not part of the repository sources, so it is modelled from the
specification of the consumed codec interface; everything else is a direct
translation of the C sources.
-/

namespace Mako

/-! ## Primitive codec library (modelled from the spec, section 6) -/

/-- Modelled from the spec: codec writer for a little-endian u16
(`uint16` writer of the consumed codec library). -/
def w16 (n : Nat) : List Nat := [n % 256, n / 256 % 256]

/-- Modelled from the spec: codec writer for a little-endian u32. -/
def w32 (n : Nat) : List Nat := w16 (n % 65536) ++ w16 (n / 65536 % 65536)

/-- Modelled from the spec: codec writer for a little-endian u64. -/
def w64 (n : Nat) : List Nat := w32 (n % 4294967296) ++ w32 (n / 4294967296 % 4294967296)

/-- Modelled from the spec: codec writer for a little-endian i64
(two's complement). -/
def wI64 (v : Int) : List Nat := w64 (v % 18446744073709551616).toNat

/-- Modelled from the spec: codec reader for one byte. -/
def r8 : List Nat → Option (Nat × List Nat)
  | [] => none
  | b :: s => some (b, s)

/-- Modelled from the spec: codec reader for a little-endian u16. -/
def r16 (s : List Nat) : Option (Nat × List Nat) :=
  match r8 s with
  | none => none
  | some (b0, s) =>
    match r8 s with
    | none => none
    | some (b1, s) => some (b0 + 256 * b1, s)

/-- Modelled from the spec: codec reader for a little-endian u32. -/
def r32 (s : List Nat) : Option (Nat × List Nat) :=
  match r16 s with
  | none => none
  | some (lo, s) =>
    match r16 s with
    | none => none
    | some (hi, s) => some (lo + 65536 * hi, s)

/-- Modelled from the spec: codec reader for a little-endian u64. -/
def r64 (s : List Nat) : Option (Nat × List Nat) :=
  match r32 s with
  | none => none
  | some (lo, s) =>
    match r32 s with
    | none => none
    | some (hi, s) => some (lo + 4294967296 * hi, s)

/-- Modelled from the spec: codec reader for a little-endian i64
(two's complement). -/
def rI64 (s : List Nat) : Option (Int × List Nat) :=
  match r64 s with
  | none => none
  | some (n, s) =>
    some (if n < 9223372036854775808 then (n : Int) else (n : Int) - 18446744073709551616, s)

/-- Modelled from the spec: Bitcoin variable-length integer writer
(`size` writer of the consumed codec library). -/
def btc_size_write (n : Nat) : List Nat :=
  if n < 253 then [n]
  else if n < 65536 then 253 :: w16 n
  else if n < 4294967296 then 254 :: w32 n
  else 255 :: w64 n

/-- Modelled from the spec: Bitcoin variable-length integer reader. -/
def btc_size_read (s : List Nat) : Option (Nat × List Nat) :=
  match r8 s with
  | none => none
  | some (b, s) =>
    if b < 253 then some (b, s)
    else if b = 253 then r16 s
    else if b = 254 then r32 s
    else r64 s

/-- Modelled from the spec: raw reader taking `n` bytes from the stream. -/
def rTake (n : Nat) (s : List Nat) : Option (List Nat × List Nat) :=
  if n ≤ s.length then some (s.take n, s.drop n) else none

/-- Modelled from the spec: reader for a counted sequence, reading `n`
items with the item reader `r`. -/
def rCount {α : Type} (r : List Nat → Option (α × List Nat)) :
    Nat → List Nat → Option (List α × List Nat)
  | 0, s => some ([], s)
  | Nat.succ k, s =>
    match r s with
    | none => none
    | some (x, s) =>
      match rCount r k s with
      | none => none
      | some (xs, s) => some (x :: xs, s)

/-! ### Round-trip facts for the primitive codecs -/

theorem r16_w16 (n : Nat) (h : n < 65536) (rest : List Nat) :
    r16 (w16 n ++ rest) = some (n, rest) := by
  simp only [w16, r16, r8, List.cons_append, List.nil_append]
  congr 1
  congr 1
  omega

theorem r32_w32 (n : Nat) (h : n < 4294967296) (rest : List Nat) :
    r32 (w32 n ++ rest) = some (n, rest) := by
  have e1 := r16_w16 (n % 65536) (by omega) (w16 (n / 65536 % 65536) ++ rest)
  have e2 := r16_w16 (n / 65536 % 65536) (by omega) rest
  simp only [w32, List.append_assoc, r32, e1, e2, Option.some.injEq, Prod.mk.injEq, and_true]
  omega

theorem r64_w64 (n : Nat) (h : n < 18446744073709551616) (rest : List Nat) :
    r64 (w64 n ++ rest) = some (n, rest) := by
  have e1 := r32_w32 (n % 4294967296) (by omega) (w32 (n / 4294967296 % 4294967296) ++ rest)
  have e2 := r32_w32 (n / 4294967296 % 4294967296) (by omega) rest
  simp only [w64, List.append_assoc, r64, e1, e2, Option.some.injEq, Prod.mk.injEq, and_true]
  omega

theorem rI64_wI64 (v : Int) (h1 : -9223372036854775808 ≤ v)
    (h2 : v < 9223372036854775808) (rest : List Nat) :
    rI64 (wI64 v ++ rest) = some (v, rest) := by
  have e1 := r64_w64 (v % 18446744073709551616).toNat (by omega) rest
  simp only [wI64, rI64, e1, Option.some.injEq, Prod.mk.injEq, and_true]
  split <;> omega

theorem btc_size_read_write (n : Nat) (h : n < 18446744073709551616) (rest : List Nat) :
    btc_size_read (btc_size_write n ++ rest) = some (n, rest) := by
  by_cases h1 : n < 253
  · simp [btc_size_write, btc_size_read, r8, h1]
  by_cases h2 : n < 65536
  · have e1 := r16_w16 n (by omega) rest
    simp [btc_size_write, btc_size_read, r8, h1, h2, e1]
  by_cases h3 : n < 4294967296
  · have e1 := r32_w32 n (by omega) rest
    simp [btc_size_write, btc_size_read, r8, h1, h2, h3, e1]
  · have e1 := r64_w64 n (by omega) rest
    simp [btc_size_write, btc_size_read, r8, h1, h2, h3, e1]

theorem rTake_append (l rest : List Nat) :
    rTake l.length (l ++ rest) = some (l, rest) := by
  simp [rTake, List.take_left, List.drop_left]

theorem rCount_flatMap {α β : Type} (r : List Nat → Option (β × List Nat))
    (w : α → List Nat) (f : α → β) (l : List α) (rest : List Nat)
    (h : ∀ x ∈ l, ∀ r2, r (w x ++ r2) = some (f x, r2)) :
    rCount r l.length (l.flatMap w ++ rest) = some (l.map f, rest) := by
  induction l with
  | nil => simp [rCount]
  | cons x xs ih =>
    have e1 := h x (by simp) (xs.flatMap w ++ rest)
    have e2 := ih (fun y hy r2 => h y (by simp [hy]) r2)
    simp only [List.flatMap_cons, List.append_assoc, List.length_cons, rCount, e1, e2]
    simp

/-! ## Transaction data model (from `src/tx.c` and the spec data model) -/

/-- An outpoint: txid (32 bytes) plus output index (u32). -/
structure btc_outpoint where
  hash : List Nat
  index : Nat
deriving DecidableEq, Repr

/-- A transaction input: previous outpoint, script, sequence, witness. -/
structure btc_input where
  prevout : btc_outpoint
  script : List Nat
  sequence : Nat
  witness : List (List Nat)
deriving DecidableEq, Repr

/-- A transaction output: value (i64 satoshis) and script. -/
structure btc_output where
  value : Int
  script : List Nat
deriving DecidableEq, Repr

/-- A transaction: version, inputs, outputs, locktime. -/
structure btc_tx where
  version : Nat
  inputs : List btc_input
  outputs : List btc_output
  locktime : Nat
deriving DecidableEq, Repr

instance : Inhabited btc_outpoint := ⟨⟨[], 0⟩⟩
instance : Inhabited btc_input := ⟨⟨⟨[], 0⟩, [], 0, []⟩⟩
instance : Inhabited btc_output := ⟨⟨0, []⟩⟩
instance : Inhabited btc_tx := ⟨⟨0, [], [], 0⟩⟩

/-! ## Object codecs (modelled from the spec, section 6 codec contracts) -/

/-- Modelled from the spec: outpoint writer (32-byte txid then u32 index). -/
def btc_outpoint_write (p : btc_outpoint) : List Nat := p.hash ++ w32 p.index

/-- Modelled from the spec: outpoint reader. -/
def btc_outpoint_read (s : List Nat) : Option (btc_outpoint × List Nat) :=
  match rTake 32 s with
  | none => none
  | some (h, s) =>
    match r32 s with
    | none => none
    | some (i, s) => some (⟨h, i⟩, s)

/-- Modelled from the spec: script (var-length byte slice) writer. -/
def btc_script_write (sc : List Nat) : List Nat := btc_size_write sc.length ++ sc

/-- Modelled from the spec: script (var-length byte slice) reader. -/
def btc_script_read (s : List Nat) : Option (List Nat × List Nat) :=
  match btc_size_read s with
  | none => none
  | some (n, s) => rTake n s

/-- Modelled from the spec: input writer (outpoint, script, sequence;
the witness is carried separately in the witness section). -/
def btc_input_write (i : btc_input) : List Nat :=
  btc_outpoint_write i.prevout ++ btc_script_write i.script ++ w32 i.sequence

/-- Modelled from the spec: input reader; the decoded input has an empty
witness (witness data lives in the witness section of a transaction). -/
def btc_input_read (s : List Nat) : Option (btc_input × List Nat) :=
  match btc_outpoint_read s with
  | none => none
  | some (p, s) =>
    match btc_script_read s with
    | none => none
    | some (sc, s) =>
      match r32 s with
      | none => none
      | some (sq, s) => some (⟨p, sc, sq, []⟩, s)

/-- Modelled from the spec: output writer (i64 value, then script). -/
def btc_output_write (o : btc_output) : List Nat :=
  wI64 o.value ++ btc_script_write o.script

/-- Modelled from the spec: output reader. -/
def btc_output_read (s : List Nat) : Option (btc_output × List Nat) :=
  match rI64 s with
  | none => none
  | some (v, s) =>
    match btc_script_read s with
    | none => none
    | some (sc, s) => some (⟨v, sc⟩, s)

/-- Modelled from the spec: witness stack writer (varint count, then each
item as a var-length slice). -/
def btc_stack_write (st : List (List Nat)) : List Nat :=
  btc_size_write st.length ++ st.flatMap btc_script_write

/-- Modelled from the spec: witness stack reader. -/
def btc_stack_read (s : List Nat) : Option (List (List Nat) × List Nat) :=
  match btc_size_read s with
  | none => none
  | some (n, s) => rCount btc_script_read n s

/-- Modelled from the spec: input vector writer (varint count then inputs). -/
def btc_inpvec_write (l : List btc_input) : List Nat :=
  btc_size_write l.length ++ l.flatMap btc_input_write

/-- Modelled from the spec: input vector reader. -/
def btc_inpvec_read (s : List Nat) : Option (List btc_input × List Nat) :=
  match btc_size_read s with
  | none => none
  | some (n, s) => rCount btc_input_read n s

/-- Modelled from the spec: output vector writer. -/
def btc_outvec_write (l : List btc_output) : List Nat :=
  btc_size_write l.length ++ l.flatMap btc_output_write

/-- Modelled from the spec: output vector reader. -/
def btc_outvec_read (s : List Nat) : Option (List btc_output × List Nat) :=
  match btc_size_read s with
  | none => none
  | some (n, s) => rCount btc_output_read n s

/-! ## Well-formedness (machine-integer ranges of the C structs) -/

/-- Field ranges implied by the C types of `btc_outpoint_t`. -/
def btc_outpoint_wf (p : btc_outpoint) : Prop :=
  p.hash.length = 32 ∧ p.index < 4294967296

/-- Field ranges implied by the C types of `btc_input_t`. -/
def btc_input_wf (i : btc_input) : Prop :=
  btc_outpoint_wf i.prevout ∧ i.script.length < 18446744073709551616 ∧
    i.sequence < 4294967296 ∧ i.witness.length < 18446744073709551616 ∧
    ∀ v ∈ i.witness, v.length < 18446744073709551616

/-- Field ranges implied by the C types of `btc_output_t`. -/
def btc_output_wf (o : btc_output) : Prop :=
  -9223372036854775808 ≤ o.value ∧ o.value < 9223372036854775808 ∧
    o.script.length < 18446744073709551616

/-- Field ranges implied by the C types of `btc_tx_t`. -/
def btc_tx_wf (tx : btc_tx) : Prop :=
  tx.version < 4294967296 ∧ tx.locktime < 4294967296 ∧
    tx.inputs.length < 18446744073709551616 ∧
    tx.outputs.length < 18446744073709551616 ∧
    (∀ i ∈ tx.inputs, btc_input_wf i) ∧ ∀ o ∈ tx.outputs, btc_output_wf o

instance (p : btc_outpoint) : Decidable (btc_outpoint_wf p) := by
  unfold btc_outpoint_wf; infer_instance

instance (i : btc_input) : Decidable (btc_input_wf i) := by
  unfold btc_input_wf; infer_instance

instance (o : btc_output) : Decidable (btc_output_wf o) := by
  unfold btc_output_wf; infer_instance

instance (tx : btc_tx) : Decidable (btc_tx_wf tx) := by
  unfold btc_tx_wf; infer_instance

/-! ### Object codec round trips -/

theorem btc_outpoint_read_write (p : btc_outpoint) (h : btc_outpoint_wf p) (rest : List Nat) :
    btc_outpoint_read (btc_outpoint_write p ++ rest) = some (p, rest) := by
  obtain ⟨h1, h2⟩ := h
  have e1 : rTake 32 (p.hash ++ (w32 p.index ++ rest)) = some (p.hash, w32 p.index ++ rest) := by
    rw [← h1]; exact rTake_append _ _
  have e2 := r32_w32 p.index h2 rest
  simp only [btc_outpoint_write, btc_outpoint_read, List.append_assoc, e1, e2]

theorem btc_script_read_write (sc : List Nat) (h : sc.length < 18446744073709551616)
    (rest : List Nat) :
    btc_script_read (btc_script_write sc ++ rest) = some (sc, rest) := by
  have e1 := btc_size_read_write sc.length h (sc ++ rest)
  simp only [btc_script_write, btc_script_read, List.append_assoc, e1, rTake_append]

theorem btc_input_read_write (i : btc_input) (h : btc_input_wf i) (rest : List Nat) :
    btc_input_read (btc_input_write i ++ rest) = some ({ i with witness := [] }, rest) := by
  obtain ⟨h1, h2, h3, _⟩ := h
  have e1 := btc_outpoint_read_write i.prevout h1
    (btc_script_write i.script ++ (w32 i.sequence ++ rest))
  have e2 := btc_script_read_write i.script h2 (w32 i.sequence ++ rest)
  have e3 := r32_w32 i.sequence h3 rest
  simp only [btc_input_write, btc_input_read, List.append_assoc, e1, e2, e3]

theorem btc_output_read_write (o : btc_output) (h : btc_output_wf o) (rest : List Nat) :
    btc_output_read (btc_output_write o ++ rest) = some (o, rest) := by
  obtain ⟨h1, h2, h3⟩ := h
  have e1 := rI64_wI64 o.value h1 h2 (btc_script_write o.script ++ rest)
  have e2 := btc_script_read_write o.script h3 rest
  simp only [btc_output_write, btc_output_read, List.append_assoc, e1, e2]

theorem btc_stack_read_write (st : List (List Nat))
    (h1 : st.length < 18446744073709551616)
    (h2 : ∀ v ∈ st, v.length < 18446744073709551616) (rest : List Nat) :
    btc_stack_read (btc_stack_write st ++ rest) = some (st, rest) := by
  have e1 := btc_size_read_write st.length h1 (st.flatMap btc_script_write ++ rest)
  have e2 := rCount_flatMap btc_script_read btc_script_write id st rest
    (fun v hv r2 => btc_script_read_write v (h2 v hv) r2)
  simp only [btc_stack_write, btc_stack_read, List.append_assoc, e1, e2, List.map_id]

theorem btc_inpvec_read_write (l : List btc_input)
    (h1 : l.length < 18446744073709551616) (h2 : ∀ i ∈ l, btc_input_wf i)
    (rest : List Nat) :
    btc_inpvec_read (btc_inpvec_write l ++ rest) =
      some (l.map (fun i => { i with witness := [] }), rest) := by
  have e1 := btc_size_read_write l.length h1 (l.flatMap btc_input_write ++ rest)
  have e2 := rCount_flatMap btc_input_read btc_input_write
    (fun i => { i with witness := [] }) l rest
    (fun i hi r2 => btc_input_read_write i (h2 i hi) r2)
  simp only [btc_inpvec_write, btc_inpvec_read, List.append_assoc, e1, e2]

theorem btc_outvec_read_write (l : List btc_output)
    (h1 : l.length < 18446744073709551616) (h2 : ∀ o ∈ l, btc_output_wf o)
    (rest : List Nat) :
    btc_outvec_read (btc_outvec_write l ++ rest) = some (l, rest) := by
  have e1 := btc_size_read_write l.length h1 (l.flatMap btc_output_write ++ rest)
  have e2 := rCount_flatMap btc_output_read btc_output_write id l rest
    (fun o ho r2 => btc_output_read_write o (h2 o ho) r2)
  simp only [btc_outvec_write, btc_outvec_read, List.append_assoc, e1, e2, List.map_id]

/-! ## Transaction serialization (`btc_tx_write` / `btc_tx_read`, src/tx.c) -/

/-- `btc_tx_has_witness` (src/tx.c): true iff some input carries a
non-empty witness stack. -/
def btc_tx_has_witness (tx : btc_tx) : Bool :=
  tx.inputs.any (fun i => !i.witness.isEmpty)

/-- `btc_tx_write` (src/tx.c): version, optional segwit marker `00 01`,
inputs, outputs, optional per-input witness stacks, locktime.  The witness
form is emitted iff some input has a non-empty witness. -/
def btc_tx_write (tx : btc_tx) : List Nat :=
  w32 tx.version
    ++ (if btc_tx_has_witness tx then [0, 1] else [])
    ++ btc_inpvec_write tx.inputs
    ++ btc_outvec_write tx.outputs
    ++ (if btc_tx_has_witness tx then tx.inputs.flatMap (fun i => btc_stack_write i.witness)
        else [])
    ++ w32 tx.locktime

/-- The explicit witness-form serialization: marker `00 01` and the
per-input witness stacks are always emitted.  For a witness-free
transaction this is its serialization "with the marker followed by empty
witness stacks". -/
def btc_tx_write_marked (tx : btc_tx) : List Nat :=
  w32 tx.version ++ [0, 1] ++ btc_inpvec_write tx.inputs ++ btc_outvec_write tx.outputs
    ++ tx.inputs.flatMap (fun i => btc_stack_write i.witness) ++ w32 tx.locktime

/-- The marker test of `btc_tx_read` (src/tx.c): if at least two bytes
remain, the first is zero and the second non-zero, consume both and use
the second as the flag byte; otherwise leave the stream alone with
flag zero. -/
def btc_tx_read_marker (s : List Nat) : Nat × List Nat :=
  match s with
  | b0 :: b1 :: rest => if b0 = 0 ∧ b1 ≠ 0 then (b1, rest) else (0, b0 :: b1 :: rest)
  | other => (0, other)

/-- `btc_tx_read` (src/tx.c): version; optional marker/flag pair; inputs;
outputs; if flag bit 0 is set, one witness stack per input; any remaining
flag bit is a parse error; a transaction with no inputs but some outputs
is rejected; locktime. -/
def btc_tx_read (s : List Nat) : Option (btc_tx × List Nat) :=
  match r32 s with
  | none => none
  | some (version, s) =>
    let (flags, s) := btc_tx_read_marker s
    match btc_inpvec_read s with
    | none => none
    | some (inputs, s) =>
      match btc_outvec_read s with
      | none => none
      | some (outputs, s) =>
        let step : Option (List btc_input × Nat × List Nat) :=
          if flags &&& 1 = 1 then
            match rCount btc_stack_read inputs.length s with
            | none => none
            | some (wits, s) =>
              some (List.zipWith (fun i v => { i with witness := v }) inputs wits,
                flags ^^^ 1, s)
          else some (inputs, flags, s)
        match step with
        | none => none
        | some (inputs, flags, s) =>
          if flags ≠ 0 then none
          else if inputs.length = 0 ∧ outputs.length ≠ 0 then none
          else
            match r32 s with
            | none => none
            | some (locktime, s) => some (⟨version, inputs, outputs, locktime⟩, s)

/-! ### Round trip of the transaction serializer -/

theorem btc_tx_read_marker_skip (s : List Nat) (h : s.headD 1 ≠ 0) :
    btc_tx_read_marker s = (0, s) := by
  match s with
  | [] => rfl
  | [b] => rfl
  | b0 :: b1 :: t =>
    simp only [List.headD_cons] at h
    simp [btc_tx_read_marker, h]

theorem btc_size_write_headD (n : Nat) (h : n ≠ 0) (rest : List Nat) :
    (btc_size_write n ++ rest).headD 1 ≠ 0 := by
  unfold btc_size_write
  split
  · simpa using h
  split
  · simp
  split <;> simp

theorem witness_all_empty (tx : btc_tx) (h : btc_tx_has_witness tx = false) :
    ∀ i ∈ tx.inputs, i.witness = [] := by
  intro i hi
  simp only [btc_tx_has_witness, List.any_eq_false, Bool.not_eq_true', List.isEmpty_eq_true,
    Bool.not_eq_false] at h
  have := h i hi
  simpa [List.isEmpty_iff] using this

theorem strip_map_id (l : List btc_input) (h : ∀ i ∈ l, i.witness = []) :
    l.map (fun i => { i with witness := [] }) = l := by
  induction l with
  | nil => rfl
  | cons x xs ih =>
    have hx := h x (by simp)
    have hxs := ih (fun i hi => h i (by simp [hi]))
    simp only [List.map_cons, hxs, List.cons.injEq, and_true]
    cases x
    simp_all

theorem zip_restore (l : List btc_input) :
    List.zipWith (fun i v => { i with witness := v })
      (l.map (fun i => { i with witness := [] })) (l.map (fun i => i.witness)) = l := by
  induction l with
  | nil => rfl
  | cons x xs ih => simp [ih]

/-- Parsing the explicit witness-form serialization recovers the
transaction. -/
theorem btc_tx_read_write_marked (tx : btc_tx) (hwf : btc_tx_wf tx)
    (hne : tx.inputs = [] → tx.outputs = []) :
    btc_tx_read (btc_tx_write_marked tx) = some (tx, []) := by
  obtain ⟨hv, hl, hil, hol, hiw, how⟩ := hwf
  have e1 := r32_w32 tx.version hv
    ([0, 1] ++ (btc_inpvec_write tx.inputs ++ (btc_outvec_write tx.outputs
      ++ (tx.inputs.flatMap (fun i => btc_stack_write i.witness) ++ w32 tx.locktime))))
  have e2 := btc_inpvec_read_write tx.inputs hil hiw
    (btc_outvec_write tx.outputs
      ++ (tx.inputs.flatMap (fun i => btc_stack_write i.witness) ++ w32 tx.locktime))
  have e3 := btc_outvec_read_write tx.outputs hol how
    (tx.inputs.flatMap (fun i => btc_stack_write i.witness) ++ w32 tx.locktime)
  have e4 : rCount btc_stack_read (tx.inputs.map (fun i => { i with witness := [] })).length
      (tx.inputs.flatMap (fun i => btc_stack_write i.witness) ++ w32 tx.locktime) =
      some (tx.inputs.map (fun i => i.witness), w32 tx.locktime) := by
    rw [List.length_map]
    exact rCount_flatMap btc_stack_read (fun i => btc_stack_write i.witness)
      (fun i => i.witness) tx.inputs (w32 tx.locktime)
      (fun i hi r2 => btc_stack_read_write i.witness (hiw i hi).2.2.2.1
        (hiw i hi).2.2.2.2 r2)
  have e5 := r32_w32 tx.locktime hl []
  have emark : btc_tx_read_marker
      ([0, 1] ++ (btc_inpvec_write tx.inputs ++ (btc_outvec_write tx.outputs
        ++ (tx.inputs.flatMap (fun i => btc_stack_write i.witness) ++ w32 tx.locktime)))) =
      (1, btc_inpvec_write tx.inputs ++ (btc_outvec_write tx.outputs
        ++ (tx.inputs.flatMap (fun i => btc_stack_write i.witness) ++ w32 tx.locktime))) := by
    simp [btc_tx_read_marker]
  have echeck : ¬(tx.inputs.length = 0 ∧ tx.outputs.length ≠ 0) := by
    rintro ⟨hz, hnz⟩
    exact hnz (by simp [hne (List.length_eq_zero.mp hz)])
  have e5' : r32 (w32 tx.locktime) = some (tx.locktime, []) := by simpa using e5
  simp only [btc_tx_write_marked, List.append_assoc, List.cons_append, List.nil_append] at *
  simp only [btc_tx_read, e1, emark, e2, e3, e4, zip_restore]
  simp only [ne_eq, Nat.xor_self, not_true_eq_false, ite_false, if_neg echeck, e5',
    not_false_eq_true, ite_true]
  simp [e5', echeck]
  exact hne

/-- Parsing the serializer's output recovers the transaction (the
serializer emits the witness form iff some witness is non-empty). -/
theorem btc_tx_read_write_aux (tx : btc_tx) (hwf : btc_tx_wf tx)
    (hne : tx.inputs = [] → tx.outputs = []) :
    btc_tx_read (btc_tx_write tx) = some (tx, []) := by
  by_cases hw : btc_tx_has_witness tx
  · have : btc_tx_write tx = btc_tx_write_marked tx := by
      simp [btc_tx_write, btc_tx_write_marked, hw, List.append_assoc]
    rw [this]
    exact btc_tx_read_write_marked tx hwf hne
  · obtain ⟨hv, hl, hil, hol, hiw, how⟩ := hwf
    have hwit := witness_all_empty tx (by simpa using hw)
    have e1 := r32_w32 tx.version hv
      (btc_inpvec_write tx.inputs ++ (btc_outvec_write tx.outputs ++ w32 tx.locktime))
    have e2' := btc_inpvec_read_write tx.inputs hil hiw
      (btc_outvec_write tx.outputs ++ w32 tx.locktime)
    have e2 : btc_inpvec_read
        (btc_inpvec_write tx.inputs ++ (btc_outvec_write tx.outputs ++ w32 tx.locktime)) =
        some (tx.inputs, btc_outvec_write tx.outputs ++ w32 tx.locktime) := by
      rw [e2', strip_map_id tx.inputs hwit]
    have e3 := btc_outvec_read_write tx.outputs hol how (w32 tx.locktime)
    have e5 := r32_w32 tx.locktime hl []
    have echeck : ¬(tx.inputs.length = 0 ∧ tx.outputs.length ≠ 0) := by
      rintro ⟨hz, hnz⟩
      exact hnz (by simp [hne (List.length_eq_zero.mp hz)])
    have emark : btc_tx_read_marker
        (btc_inpvec_write tx.inputs ++ (btc_outvec_write tx.outputs ++ w32 tx.locktime)) =
        (0, btc_inpvec_write tx.inputs ++ (btc_outvec_write tx.outputs ++ w32 tx.locktime)) := by
      cases hcase : tx.inputs with
      | nil =>
        have hout : tx.outputs = [] := hne hcase
        simp [hcase, hout, btc_inpvec_write, btc_outvec_write, btc_size_write,
          btc_tx_read_marker]
      | cons i l =>
        apply btc_tx_read_marker_skip
        have hne0 : tx.inputs.length ≠ 0 := by simp [hcase]
        have hh := btc_size_write_headD tx.inputs.length hne0
          (tx.inputs.flatMap btc_input_write
            ++ (btc_outvec_write tx.outputs ++ w32 tx.locktime))
        unfold btc_inpvec_write
        rw [List.append_assoc, ← hcase]
        exact hh
    have e5' : r32 (w32 tx.locktime) = some (tx.locktime, []) := by simpa using e5
    simp only [btc_tx_write, hw, if_neg, Bool.false_eq_true, if_false, List.append_assoc,
      List.nil_append, List.append_nil]
    simp only [btc_tx_read, e1, emark, e2, e3]
    simp [e5', echeck]
    exact hne

/-! ### Claim C4 -/

/-- Example transaction with a witness-free input and one output. -/
def txC4w : btc_tx :=
  ⟨1, [⟨⟨List.replicate 32 7, 0⟩, [81], 4294967295, []⟩], [⟨50, [81]⟩], 0⟩

/-- Counterexample transaction of claim C4: no inputs, one output. -/
def txC4cx : btc_tx := ⟨1, [], [⟨0, []⟩], 0⟩

/-- C4 (amended): for every well-formed transaction that does not have
zero inputs together with at least one output, decoding the serializer's
bytes yields the transaction back, and for a witness-free transaction the
marker-plus-empty-stacks form decodes to the same transaction as the
marker-free form. -/
theorem claim_C4 (tx : btc_tx) (hwf : btc_tx_wf tx)
    (hne : tx.inputs = [] → tx.outputs = []) :
    btc_tx_read (btc_tx_write tx) = some (tx, []) ∧
    (btc_tx_has_witness tx = false →
      btc_tx_read (btc_tx_write_marked tx) = btc_tx_read (btc_tx_write tx)) := by
  refine ⟨btc_tx_read_write_aux tx hwf hne, fun _ => ?_⟩
  rw [btc_tx_read_write_marked tx hwf hne, btc_tx_read_write_aux tx hwf hne]

/-- Witness for C4: the amended round trip evaluated at a concrete
transaction. -/
theorem claim_C4_witness :
    btc_tx_wf txC4w ∧ (txC4w.inputs = [] → txC4w.outputs = []) ∧
      btc_tx_read (btc_tx_write txC4w) = some (txC4w, []) :=
  ⟨by decide, by decide, (claim_C4 txC4w (by decide) (by decide)).1⟩

/-- Counterexample to C4 as stated: a transaction with zero inputs and a
non-empty output list does not round-trip — its marker-free serialization
re-decodes as a different (empty) transaction with trailing garbage,
because the zero input count is mistaken for a segwit marker. -/
theorem claim_C4_cx :
    btc_tx_read (btc_tx_write txC4cx) =
      some (⟨1, [], [], 0⟩, [0, 0, 0, 0, 0, 0, 0]) ∧ (⟨1, [], [], 0⟩ : btc_tx) ≠ txC4cx := by
  constructor
  · decide
  · decide

/-! ## Sighash version 0 (`btc_tx_sighash_v0`, src/tx.c) -/

/-- Sighash type flag SIGHASH_NONE (consensus constants). -/
def BTC_SIGHASH_NONE : Nat := 2

/-- Sighash type flag SIGHASH_SINGLE. -/
def BTC_SIGHASH_SINGLE : Nat := 3

/-- Sighash type flag SIGHASH_ANYONECANPAY. -/
def BTC_SIGHASH_ANYONECANPAY : Nat := 128

/-- Modelled from the spec: `btc_script_remove_separators` removes all
OP_CODESEPARATOR (0xab) bytes from the script. -/
def btc_script_remove_separators (s : List Nat) : List Nat :=
  s.filter (fun b => b != 171)

/-- The byte stream hashed by `btc_tx_sighash_v0` (src/tx.c), mirroring
the sequence of digest-update calls. -/
def btc_tx_sighash_v0_pre (tx : btc_tx) (index : Nat) (prev : List Nat) (ty : Nat) :
    List Nat :=
  let prevS := btc_script_remove_separators prev
  let inputsPart :=
    if ty &&& BTC_SIGHASH_ANYONECANPAY ≠ 0 then
      btc_size_write 1
        ++ btc_outpoint_write (tx.inputs.getD index default).prevout
        ++ btc_script_write prevS
        ++ w32 (tx.inputs.getD index default).sequence
    else
      btc_size_write tx.inputs.length
        ++ (List.range tx.inputs.length).flatMap (fun i =>
            let input := tx.inputs.getD i default
            btc_outpoint_write input.prevout
              ++ (if i = index then btc_script_write prevS ++ w32 input.sequence
                  else btc_size_write 0
                    ++ (if ty &&& 31 = BTC_SIGHASH_NONE ∨ ty &&& 31 = BTC_SIGHASH_SINGLE
                        then w32 0 else w32 input.sequence)))
  let outputsPart :=
    if ty &&& 31 = BTC_SIGHASH_NONE then btc_size_write 0
    else if ty &&& 31 = BTC_SIGHASH_SINGLE then
      btc_size_write (index + 1)
        ++ (List.range index).flatMap (fun _ => wI64 (-1) ++ btc_size_write 0)
        ++ btc_output_write (tx.outputs.getD index default)
    else
      btc_size_write tx.outputs.length ++ tx.outputs.flatMap btc_output_write
  w32 tx.version ++ inputsPart ++ outputsPart ++ w32 tx.locktime ++ w32 ty

/-- `btc_tx_sighash_v0` (src/tx.c), parametric in the external
double-SHA-256 `h256`.  For SINGLE with the input index beyond the last
output it returns the historical constant `01 00…00` without hashing. -/
def btc_tx_sighash_v0 (h256 : List Nat → List Nat) (tx : btc_tx) (index : Nat)
    (prev : List Nat) (ty : Nat) : List Nat :=
  if ty &&& 31 = BTC_SIGHASH_SINGLE ∧ tx.outputs.length ≤ index then
    1 :: List.replicate 31 0
  else h256 (btc_tx_sighash_v0_pre tx index prev ty)

/-! ### Claim C5 -/

/-- Example transaction for the claim C5 witness. -/
def txC5ex : btc_tx := ⟨1, [⟨⟨List.replicate 32 9, 1⟩, [2, 171], 7, []⟩], [], 99⟩

/-- C5: for every transaction, input index, previous script and sighash
type with `(T and 0x1f) = SIGHASH_SINGLE` and the index at or beyond the
number of outputs, the legacy sighash is the constant whose first byte is
1 and whose other 31 bytes are 0, independently of all other arguments. -/
theorem claim_C5 (h256 : List Nat → List Nat) (tx : btc_tx) (index : Nat)
    (prev : List Nat) (ty : Nat) (h1 : ty &&& 31 = BTC_SIGHASH_SINGLE)
    (h2 : tx.outputs.length ≤ index) :
    btc_tx_sighash_v0 h256 tx index prev ty = 1 :: List.replicate 31 0 := by
  simp [btc_tx_sighash_v0, h1, h2]

/-- Witness for C5 at a concrete transaction and type 0x83
(SINGLE or ANYONECANPAY). -/
theorem claim_C5_witness :
    (131 &&& 31 = BTC_SIGHASH_SINGLE ∧ txC5ex.outputs.length ≤ 0) ∧
      btc_tx_sighash_v0 (fun _ => []) txC5ex 0 [171, 5] 131 = 1 :: List.replicate 31 0 :=
  ⟨⟨by decide, by decide⟩, claim_C5 (fun _ => []) txC5ex 0 [171, 5] 131 (by decide) (by decide)⟩

/-! ## Transaction sanity checks (`btc_tx_check_sanity`, src/tx.c) -/

/-- Consensus constant: maximum money (21 million BTC in satoshis). -/
def BTC_MAX_MONEY : Int := 2100000000000000

/-- Consensus constant: maximum base block size in bytes. -/
def BTC_MAX_BLOCK_SIZE : Nat := 1000000

/-- Modelled from the spec: an outpoint is null iff its txid is all zero
and its index is 0xFFFFFFFF. -/
def btc_outpoint_is_null (p : btc_outpoint) : Bool :=
  decide (p.hash = List.replicate 32 0 ∧ p.index = 4294967295)

/-- `btc_tx_is_coinbase` (src/tx.c): exactly one input whose outpoint is
null. -/
def btc_tx_is_coinbase (tx : btc_tx) : Bool :=
  if tx.inputs.length ≠ 1 then false
  else btc_outpoint_is_null (tx.inputs.getD 0 default).prevout

/-- `btc_tx_base_write`: the non-witness serialization (version, inputs,
outputs, locktime). -/
def btc_tx_base_write (tx : btc_tx) : List Nat :=
  w32 tx.version ++ btc_inpvec_write tx.inputs ++ btc_outvec_write tx.outputs
    ++ w32 tx.locktime

/-- `btc_tx_base_size` (src/tx.c): length of the non-witness
serialization. -/
def btc_tx_base_size (tx : btc_tx) : Nat := (btc_tx_base_write tx).length

/-- The scanning loop of `btc_tx_has_duplicate_inputs` (src/tx.c): walk
the inputs keeping the set of outpoints seen so far; report a duplicate as
soon as an outpoint repeats. -/
def btc_dup_go : List btc_outpoint → List btc_input → Bool
  | _, [] => false
  | seen, i :: rest => if i.prevout ∈ seen then true else btc_dup_go (i.prevout :: seen) rest

/-- `btc_tx_has_duplicate_inputs` (src/tx.c). -/
def btc_tx_has_duplicate_inputs (tx : btc_tx) : Bool := btc_dup_go [] tx.inputs

/-- The per-output loop of `btc_tx_check_sanity` (src/tx.c): range-check
each value and the running total. -/
def btc_tx_check_outputs : List btc_output → Int → Option (String × Nat)
  | [], _ => none
  | o :: rest, total =>
    if o.value < 0 then some ("bad-txns-vout-negative", 100)
    else if o.value > BTC_MAX_MONEY then some ("bad-txns-vout-toolarge", 100)
    else
      let total := total + o.value
      if total < 0 ∨ total > BTC_MAX_MONEY then some ("bad-txns-txouttotal-toolarge", 100)
      else btc_tx_check_outputs rest total

/-- `btc_tx_check_sanity` (src/tx.c): `none` means the transaction is
sane; otherwise the (message, ban-score) pair of the first failing
check. -/
def btc_tx_check_sanity (tx : btc_tx) : Option (String × Nat) :=
  if tx.inputs.length = 0 then some ("bad-txns-vin-empty", 100)
  else if tx.outputs.length = 0 then some ("bad-txns-vout-empty", 100)
  else if btc_tx_base_size tx > BTC_MAX_BLOCK_SIZE then some ("bad-txns-oversize", 100)
  else
    match btc_tx_check_outputs tx.outputs 0 with
    | some e => some e
    | none =>
      if btc_tx_has_duplicate_inputs tx then some ("bad-txns-inputs-duplicate", 100)
      else if btc_tx_is_coinbase tx then
        if (tx.inputs.getD 0 default).script.length < 2 ∨
            (tx.inputs.getD 0 default).script.length > 100 then some ("bad-cb-length", 100)
        else none
      else if tx.inputs.any (fun i => btc_outpoint_is_null i.prevout) then
        some ("bad-txns-prevout-null", 10)
      else none

/-- Running sum of the first `k` output values. -/
def sumVals : List btc_output → Nat → Int
  | _, 0 => 0
  | [], _ + 1 => 0
  | o :: rest, k + 1 => o.value + sumVals rest k

theorem btc_dup_go_eq_false (seen : List btc_outpoint) (l : List btc_input) :
    btc_dup_go seen l = false ↔
      (l.map (fun i => i.prevout)).Nodup ∧ ∀ i ∈ l, i.prevout ∉ seen := by
  induction l generalizing seen with
  | nil => simp [btc_dup_go]
  | cons x xs ih =>
    by_cases hx : x.prevout ∈ seen
    · simp only [btc_dup_go, if_pos hx]
      constructor
      · intro h
        exact absurd h (by simp)
      · rintro ⟨-, h⟩
        exact absurd hx (h x (by simp))
    · simp only [btc_dup_go, if_neg hx, ih]
      constructor
      · rintro ⟨hnd, hmem⟩
        have hb : ∀ i ∈ xs, i.prevout ≠ x.prevout := by
          intro i hi
          have := hmem i hi
          simp only [List.mem_cons] at this
          tauto
        have hc : ∀ i ∈ xs, i.prevout ∉ seen := by
          intro i hi
          have := hmem i hi
          simp only [List.mem_cons] at this
          tauto
        refine ⟨?_, ?_⟩
        · simp only [List.map_cons, List.nodup_cons]
          refine ⟨?_, hnd⟩
          simp only [List.mem_map, not_exists]
          intro i
          rintro ⟨hi, he⟩
          exact hb i hi he
        · intro i hi
          rcases List.mem_cons.mp hi with rfl | h
          · exact hx
          · exact hc i h
      · rintro ⟨hnd2, hmem2⟩
        simp only [List.map_cons, List.nodup_cons] at hnd2
        obtain ⟨hxm, hnd⟩ := hnd2
        refine ⟨hnd, ?_⟩
        intro i hi
        simp only [List.mem_cons]
        push_neg
        constructor
        · intro he
          exact hxm (List.mem_map.mpr ⟨i, hi, he⟩)
        · exact hmem2 i (by simp [hi])

theorem btc_tx_check_outputs_none (l : List btc_output) (t : Int)
    (h0 : 0 ≤ t) (h1 : t ≤ BTC_MAX_MONEY) :
    btc_tx_check_outputs l t = none ↔
      (∀ o ∈ l, 0 ≤ o.value ∧ o.value ≤ BTC_MAX_MONEY) ∧
      (∀ k, 1 ≤ k → k ≤ l.length →
        0 ≤ t + sumVals l k ∧ t + sumVals l k ≤ BTC_MAX_MONEY) := by
  induction l generalizing t with
  | nil =>
    simp only [btc_tx_check_outputs, List.not_mem_nil, false_implies, implies_true,
      List.length_nil, true_iff, true_and]
    intro k hk1 hk2
    omega
  | cons o rest ih =>
    by_cases hv0 : o.value < 0
    · simp only [btc_tx_check_outputs, if_pos hv0]
      simp only [List.mem_cons]
      constructor
      · intro h
        exact absurd h (by simp)
      · rintro ⟨hall, -⟩
        have := (hall o (Or.inl rfl)).1
        omega
    by_cases hvM : o.value > BTC_MAX_MONEY
    · simp only [btc_tx_check_outputs, if_neg hv0, if_pos hvM]
      simp only [List.mem_cons]
      constructor
      · intro h
        exact absurd h (by simp)
      · rintro ⟨hall, -⟩
        have := (hall o (Or.inl rfl)).2
        omega
    by_cases htot : t + o.value < 0 ∨ t + o.value > BTC_MAX_MONEY
    · simp only [btc_tx_check_outputs, if_neg hv0, if_neg hvM, if_pos htot]
      constructor
      · intro h
        exact absurd h (by simp)
      · rintro ⟨-, hk⟩
        have := hk 1 (by omega) (by simp)
        simp only [sumVals] at this
        omega
    · simp only [btc_tx_check_outputs, if_neg hv0, if_neg hvM, if_neg htot]
      rw [ih (t + o.value) (by omega) (by omega)]
      constructor
      · rintro ⟨hall, hk⟩
        refine ⟨?_, ?_⟩
        · rintro o2 ho2
          rcases List.mem_cons.mp ho2 with rfl | h
          · exact ⟨by omega, by omega⟩
          · exact hall o2 h
        · rintro k hk1 hk2
          match k, hk1 with
          | 1, _ =>
            simp only [sumVals]
            omega
          | Nat.succ (Nat.succ k2), _ =>
            have := hk (k2 + 1) (by omega) (by simpa using hk2)
            simp only [sumVals] at *
            omega
      · rintro ⟨hall, hk⟩
        refine ⟨fun o2 ho2 => hall o2 (by simp [ho2]), ?_⟩
        rintro k hk1 hk2
        have := hk (k + 1) (by omega) (by simpa using hk2)
        simp only [sumVals] at this
        omega

theorem btc_tx_check_outputs_some (l : List btc_output) (t : Int) (m : String) (s : Nat)
    (h : btc_tx_check_outputs l t = some (m, s)) :
    s = 100 ∧ m ≠ "bad-txns-prevout-null" := by
  induction l generalizing t with
  | nil => simp [btc_tx_check_outputs] at h
  | cons o rest ih =>
    simp only [btc_tx_check_outputs] at h
    split_ifs at h with hc1 hc2 hc3
    · simp only [Option.some.injEq, Prod.mk.injEq] at h
      obtain ⟨rfl, rfl⟩ := h
      exact ⟨rfl, by decide⟩
    · simp only [Option.some.injEq, Prod.mk.injEq] at h
      obtain ⟨rfl, rfl⟩ := h
      exact ⟨rfl, by decide⟩
    · simp only [Option.some.injEq, Prod.mk.injEq] at h
      obtain ⟨rfl, rfl⟩ := h
      exact ⟨rfl, by decide⟩
    · exact ih _ h

/-- The failure disjunction of claim C6, written out as the spec states
it. -/
def sanity_bad (tx : btc_tx) : Prop :=
  tx.inputs = [] ∨ tx.outputs = [] ∨ btc_tx_base_size tx > BTC_MAX_BLOCK_SIZE ∨
    (∃ o ∈ tx.outputs, o.value < 0 ∨ o.value > BTC_MAX_MONEY) ∨
    (∃ k, 1 ≤ k ∧ k ≤ tx.outputs.length ∧
      (sumVals tx.outputs k < 0 ∨ sumVals tx.outputs k > BTC_MAX_MONEY)) ∨
    ¬(tx.inputs.map (fun i => i.prevout)).Nodup ∨
    (btc_tx_is_coinbase tx = true ∧
      ((tx.inputs.getD 0 default).script.length < 2 ∨
        (tx.inputs.getD 0 default).script.length > 100)) ∨
    (btc_tx_is_coinbase tx = false ∧
      ∃ i ∈ tx.inputs, btc_outpoint_is_null i.prevout = true)

/-- C6: `check_sanity` succeeds exactly when none of the spec's failure
conditions holds, and every reported score is 100 except for the
non-coinbase null-prevout case, which scores 10. -/
theorem claim_C6 (tx : btc_tx) :
    (btc_tx_check_sanity tx = none ↔ ¬sanity_bad tx) ∧
    (∀ m s, btc_tx_check_sanity tx = some (m, s) →
      s = if m = "bad-txns-prevout-null" then 10 else 100) := by
  have hMM : (0 : Int) ≤ BTC_MAX_MONEY := by norm_num [BTC_MAX_MONEY]
  have hout := btc_tx_check_outputs_none tx.outputs 0 le_rfl hMM
  constructor
  · unfold btc_tx_check_sanity
    by_cases h1 : tx.inputs.length = 0
    · rw [if_pos h1]
      constructor
      · intro h
        exact absurd h (by simp)
      · intro hD
        exact absurd (Or.inl (List.length_eq_zero.mp h1)) hD
    rw [if_neg h1]
    by_cases h2 : tx.outputs.length = 0
    · rw [if_pos h2]
      constructor
      · intro h
        exact absurd h (by simp)
      · intro hD
        exact absurd (Or.inr (Or.inl (List.length_eq_zero.mp h2))) hD
    rw [if_neg h2]
    by_cases h3 : btc_tx_base_size tx > BTC_MAX_BLOCK_SIZE
    · rw [if_pos h3]
      constructor
      · intro h
        exact absurd h (by simp)
      · intro hD
        exact absurd (Or.inr (Or.inr (Or.inl h3))) hD
    rw [if_neg h3]
    cases hco : btc_tx_check_outputs tx.outputs 0 with
    | some e =>
      have hnab : ¬((∀ o ∈ tx.outputs, 0 ≤ o.value ∧ o.value ≤ BTC_MAX_MONEY) ∧
          (∀ k, 1 ≤ k → k ≤ tx.outputs.length →
            0 ≤ 0 + sumVals tx.outputs k ∧ 0 + sumVals tx.outputs k ≤ BTC_MAX_MONEY)) := by
        rw [← hout]
        simp [hco]
      have hD : sanity_bad tx := by
        rcases not_and_or.mp hnab with hna | hnb
        · push_neg at hna
          obtain ⟨o, ho, hv⟩ := hna
          exact Or.inr (Or.inr (Or.inr (Or.inl ⟨o, ho, by omega⟩)))
        · push_neg at hnb
          obtain ⟨k, hk1, hk2, hv⟩ := hnb
          exact Or.inr (Or.inr (Or.inr (Or.inr (Or.inl ⟨k, hk1, hk2, by omega⟩))))
      constructor
      · intro h
        exact absurd h (by simp)
      · intro hDn
        exact absurd hD hDn
    | none =>
      obtain ⟨hA, hB⟩ := hout.mp hco
      have hnD4 : ¬∃ o ∈ tx.outputs, o.value < 0 ∨ o.value > BTC_MAX_MONEY := by
        rintro ⟨o, ho, hv⟩
        have := hA o ho
        omega
      have hnD5 : ¬∃ k, 1 ≤ k ∧ k ≤ tx.outputs.length ∧
          (sumVals tx.outputs k < 0 ∨ sumVals tx.outputs k > BTC_MAX_MONEY) := by
        rintro ⟨k, hk1, hk2, hv⟩
        have := hB k hk1 hk2
        omega
      by_cases hdup : btc_tx_has_duplicate_inputs tx = true
      · have hD6 : ¬(tx.inputs.map (fun i => i.prevout)).Nodup := by
          intro hnd
          have hfalse := (btc_dup_go_eq_false [] tx.inputs).mpr ⟨hnd, by simp⟩
          rw [btc_tx_has_duplicate_inputs, hfalse] at hdup
          exact absurd hdup (by simp)
        rw [if_pos hdup]
        constructor
        · intro h
          exact absurd h (by simp)
        · intro hDn
          exact absurd (Or.inr (Or.inr (Or.inr (Or.inr (Or.inr (Or.inl hD6)))))) hDn
      have hnD6 : (tx.inputs.map (fun i => i.prevout)).Nodup :=
        ((btc_dup_go_eq_false [] tx.inputs).mp (by simpa [btc_tx_has_duplicate_inputs]
          using hdup)).1
      rw [if_neg hdup]
      by_cases hcb : btc_tx_is_coinbase tx = true
      · rw [if_pos hcb]
        by_cases hlen : (tx.inputs.getD 0 default).script.length < 2 ∨
            (tx.inputs.getD 0 default).script.length > 100
        · rw [if_pos hlen]
          constructor
          · intro h
            exact absurd h (by simp)
          · intro hDn
            exact absurd (Or.inr (Or.inr (Or.inr (Or.inr (Or.inr (Or.inr
              (Or.inl ⟨hcb, hlen⟩))))))) hDn
        · rw [if_neg hlen]
          constructor
          · intro _
            unfold sanity_bad
            rintro (hh | hh | hh | hh | hh | hh | hh | hh)
            · exact h1 (by simp [hh])
            · exact h2 (by simp [hh])
            · exact h3 hh
            · exact hnD4 hh
            · exact hnD5 hh
            · exact hh hnD6
            · exact hlen hh.2
            · rw [hcb] at hh
              exact absurd hh.1 (by simp)
          · intro _
            rfl
      · rw [if_neg hcb]
        have hcb2 : btc_tx_is_coinbase tx = false := by simpa using hcb
        by_cases hnul : (tx.inputs.any fun i => btc_outpoint_is_null i.prevout) = true
        · rw [if_pos hnul]
          have hex : ∃ i ∈ tx.inputs, btc_outpoint_is_null i.prevout = true := by
            simpa using List.any_eq_true.mp hnul
          constructor
          · intro h
            exact absurd h (by simp)
          · intro hDn
            exact absurd (Or.inr (Or.inr (Or.inr (Or.inr (Or.inr (Or.inr (Or.inr
              ⟨hcb2, hex⟩))))))) hDn
        · rw [if_neg hnul]
          have hnex : ¬∃ i ∈ tx.inputs, btc_outpoint_is_null i.prevout = true := by
            rintro ⟨i, hi, hp⟩
            exact hnul (List.any_eq_true.mpr ⟨i, hi, hp⟩)
          constructor
          · intro _
            unfold sanity_bad
            rintro (hh | hh | hh | hh | hh | hh | hh | hh)
            · exact h1 (by simp [hh])
            · exact h2 (by simp [hh])
            · exact h3 hh
            · exact hnD4 hh
            · exact hnD5 hh
            · exact hh hnD6
            · exact hcb hh.1
            · exact hnex hh.2
          · intro _
            rfl
  · intro m s h
    unfold btc_tx_check_sanity at h
    by_cases h1 : tx.inputs.length = 0
    · rw [if_pos h1] at h
      simp only [Option.some.injEq, Prod.mk.injEq] at h
      obtain ⟨rfl, rfl⟩ := h
      decide
    rw [if_neg h1] at h
    by_cases h2 : tx.outputs.length = 0
    · rw [if_pos h2] at h
      simp only [Option.some.injEq, Prod.mk.injEq] at h
      obtain ⟨rfl, rfl⟩ := h
      decide
    rw [if_neg h2] at h
    by_cases h3 : btc_tx_base_size tx > BTC_MAX_BLOCK_SIZE
    · rw [if_pos h3] at h
      simp only [Option.some.injEq, Prod.mk.injEq] at h
      obtain ⟨rfl, rfl⟩ := h
      decide
    rw [if_neg h3] at h
    cases hco : btc_tx_check_outputs tx.outputs 0 with
    | some e =>
      obtain ⟨me, se⟩ := e
      obtain ⟨hs, hm⟩ := btc_tx_check_outputs_some tx.outputs 0 me se hco
      rw [hco] at h
      simp only [Option.some.injEq, Prod.mk.injEq] at h
      obtain ⟨rfl, rfl⟩ := h
      rw [hs, if_neg hm]
    | none =>
      rw [hco] at h
      by_cases h4 : btc_tx_has_duplicate_inputs tx = true
      · rw [if_pos h4] at h
        simp only [Option.some.injEq, Prod.mk.injEq] at h
        obtain ⟨rfl, rfl⟩ := h
        decide
      rw [if_neg h4] at h
      by_cases h5 : btc_tx_is_coinbase tx = true
      · rw [if_pos h5] at h
        by_cases h6 : (tx.inputs.getD 0 default).script.length < 2 ∨
            (tx.inputs.getD 0 default).script.length > 100
        · rw [if_pos h6] at h
          simp only [Option.some.injEq, Prod.mk.injEq] at h
          obtain ⟨rfl, rfl⟩ := h
          decide
        · rw [if_neg h6] at h
          simp at h
      · rw [if_neg h5] at h
        by_cases h7 : (tx.inputs.any fun i => btc_outpoint_is_null i.prevout) = true
        · rw [if_pos h7] at h
          simp only [Option.some.injEq, Prod.mk.injEq] at h
          obtain ⟨rfl, rfl⟩ := h
          decide
        · rw [if_neg h7] at h
          simp at h

/-- Example sane transaction for the claim C6 witness. -/
def txC6ex : btc_tx :=
  ⟨1, [⟨⟨List.replicate 32 1, 0⟩, [7], 0, []⟩], [⟨5, []⟩], 0⟩

/-- Witness for C6: the sanity characterization applied to a concrete
transaction that `check_sanity` accepts. -/
theorem claim_C6_witness : ¬sanity_bad txC6ex := (claim_C6 txC6ex).1.mp (by decide)

/-! ## fsync policy (`btc_chaindb_should_sync`, src/node/chaindb.c) -/

/-- `btc_chaindb_should_sync` (src/node/chaindb.c).  `now` is the result
of `time(NULL)` (`-1` on failure); `etime` and `height` are the entry's
header time and height.  The wall clock is truncated to u32 exactly as the
C cast does. -/
def btc_chaindb_should_sync (now : Int) (etime height : Nat) : Bool :=
  if now = -1 then true
  else
    let n32 := (now % 4294967296).toNat
    if n32 < etime then true
    else if n32 - etime ≤ 24 * 60 * 60 then true
    else if height % 1000 = 0 then true
    else false

/-! ### Claim C7 -/

/-- C7: `should_sync` is true exactly when the clock is unavailable, the
block time is in the future, the block is within 24 hours of the wall
clock, or the height is a multiple of 1000. -/
theorem claim_C7 (now : Int) (etime height : Nat) :
    btc_chaindb_should_sync now etime height = true ↔
      (now = -1 ∨ (now % 4294967296).toNat < etime ∨
        (etime ≤ (now % 4294967296).toNat ∧
          (now % 4294967296).toNat - etime ≤ 24 * 60 * 60) ∨
        height % 1000 = 0) := by
  unfold btc_chaindb_should_sync
  split_ifs with g1 g2 g3 g4 <;> simp_all <;> omega

/-- Witness for C7 at a concrete unavailable clock. -/
theorem claim_C7_witness : btc_chaindb_should_sync (-1) 500 7 = true :=
  (claim_C7 (-1) 500 7).mpr (Or.inl rfl)

/-! ## BlockTxn construction (`btc_blocktxn_set_block`, src/bip152.c) -/

/-- The copying loop of `btc_blocktxn_set_block` (src/bip152.c): walk the
requested indexes, stop at the first one at or beyond the block's
transaction count, and clone the transaction at each preceding index. -/
def btc_blocktxn_set_block (txs : List btc_tx) : List Nat → List btc_tx
  | [] => []
  | index :: rest =>
    if index < txs.length then txs.getD index default :: btc_blocktxn_set_block txs rest
    else []

/-! ### Claim C9 -/

/-- C9: the BlockTxn response contains exactly the block transactions at
the longest prefix of in-range requested indexes, in order; an
out-of-range index silently ends the copy with no error. -/
theorem claim_C9 (txs : List btc_tx) (indexes : List Nat) :
    btc_blocktxn_set_block txs indexes =
      (indexes.takeWhile (fun index => decide (index < txs.length))).map
        (fun index => txs.getD index default) := by
  induction indexes with
  | nil => rfl
  | cons index rest ih =>
    by_cases h : index < txs.length
    · simp [btc_blocktxn_set_block, List.takeWhile_cons, h, ih]
    · simp [btc_blocktxn_set_block, List.takeWhile_cons, h]

/-- Example transaction for the claim C9 witness. -/
def txC9ex : btc_tx := ⟨2, [], [], 11⟩

/-- Witness for C9 at a concrete block and request that includes an
out-of-range index. -/
theorem claim_C9_witness :
    btc_blocktxn_set_block [txC9ex] [0, 5, 0] =
      (([0, 5, 0] : List Nat).takeWhile (fun index => decide (index < [txC9ex].length))).map
        (fun index => [txC9ex].getD index default) :=
  claim_C9 [txC9ex] [0, 5, 0]

/-! ## Full-transaction verification (`btc_tx_verify`, src/tx.c) -/

/-- A UTXO record (`btc_coin_t`): provenance plus the cloned output. -/
structure btc_coin where
  version : Nat
  height : Nat
  coinbase : Bool
  spent : Bool
  output : btc_output
deriving DecidableEq, Repr

/-- The input loop of `btc_tx_verify` (src/tx.c): resolve each input's
prevout in the view; a missing coin returns 0 immediately, exactly like a
failed script verification; `vi` is input verification
(`btc_tx_verify_input`, whose script interpreter is an external
collaborator), applied to the input index and the resolved coin's
output. -/
def btc_tx_verify_go (vi : Nat → btc_output → Bool)
    (view : btc_outpoint → Option btc_coin) : Nat → List btc_input → Bool
  | _, [] => true
  | k, input :: rest =>
    match view input.prevout with
    | none => false
    | some coin =>
      if vi k coin.output then btc_tx_verify_go vi view (k + 1) rest else false

/-- `btc_tx_verify` (src/tx.c). -/
def btc_tx_verify (vi : Nat → btc_output → Bool)
    (view : btc_outpoint → Option btc_coin) (tx : btc_tx) : Bool :=
  btc_tx_verify_go vi view 0 tx.inputs

theorem btc_tx_verify_go_spec (vi : Nat → btc_output → Bool)
    (view : btc_outpoint → Option btc_coin) (k : Nat) (l : List btc_input) :
    btc_tx_verify_go vi view k l = true ↔
      ∀ j < l.length, ∃ coin, view ((l.getD j default).prevout) = some coin ∧
        vi (k + j) coin.output = true := by
  induction l generalizing k with
  | nil => simp [btc_tx_verify_go]
  | cons input rest ih =>
    cases hv : view input.prevout with
    | none =>
      simp only [btc_tx_verify_go, hv]
      constructor
      · intro h
        exact absurd h (by simp)
      · intro h
        obtain ⟨coin, hc, -⟩ := h 0 (by simp)
        simp only [List.getD_cons_zero] at hc
        rw [hv] at hc
        exact absurd hc (by simp)
    | some coin =>
      simp only [btc_tx_verify_go, hv]
      by_cases hvi : vi k coin.output
      · rw [if_pos hvi, ih (k + 1)]
        constructor
        · intro h
          intro j hj
          cases j with
          | zero => exact ⟨coin, by simpa using hv, by simpa using hvi⟩
          | succ j2 =>
            obtain ⟨c2, hc2, hvi2⟩ := h j2 (by simpa using hj)
            exact ⟨c2, by simpa using hc2, by
              have : k + 1 + j2 = k + (j2 + 1) := by omega
              rw [← this]
              exact hvi2⟩
        · intro h
          intro j hj
          obtain ⟨c2, hc2, hvi2⟩ := h (j + 1) (by simpa using hj)
          refine ⟨c2, by simpa using hc2, ?_⟩
          have : k + (j + 1) = k + 1 + j := by omega
          rw [← this]
          exact hvi2
      · rw [if_neg hvi]
        constructor
        · intro h
          exact absurd h (by simp)
        · intro h
          obtain ⟨c2, hc2, hvi2⟩ := h 0 (by simp)
          simp only [List.getD_cons_zero] at hc2
          rw [hv] at hc2
          simp only [Option.some.injEq] at hc2
          subst hc2
          simp only [Nat.add_zero] at hvi2
          exact absurd hvi2 hvi

/-! ### Claim C10 -/

/-- C10: verification succeeds exactly when every input resolves to a
coin in the view and passes input verification; in particular a missing
coin makes it return 0 (false), with no distinguished error — the same
result as a failed script verification. -/
theorem claim_C10 (vi : Nat → btc_output → Bool)
    (view : btc_outpoint → Option btc_coin) (tx : btc_tx) :
    (btc_tx_verify vi view tx = true ↔
      ∀ j < tx.inputs.length, ∃ coin,
        view ((tx.inputs.getD j default).prevout) = some coin ∧
          vi j coin.output = true) ∧
    ((∃ j < tx.inputs.length, view ((tx.inputs.getD j default).prevout) = none) →
      btc_tx_verify vi view tx = false) := by
  have h := btc_tx_verify_go_spec vi view 0 tx.inputs
  simp only [Nat.zero_add] at h
  refine ⟨h, ?_⟩
  rintro ⟨j, hj, hnone⟩
  cases hb : btc_tx_verify vi view tx with
  | false => rfl
  | true =>
    obtain ⟨coin, hc, -⟩ := (h.mp hb) j hj
    rw [hnone] at hc
    exact absurd hc (by simp)

/-- Witness for C10: a concrete one-input transaction whose prevout is
missing from the view fails verification. -/
theorem claim_C10_witness :
    btc_tx_verify (fun _ _ => true) (fun _ => none)
      ⟨1, [⟨⟨List.replicate 32 3, 1⟩, [], 0, []⟩], [], 0⟩ = false :=
  (claim_C10 (fun _ _ => true) (fun _ => none)
      ⟨1, [⟨⟨List.replicate 32 3, 1⟩, [], 0, []⟩], [], 0⟩).2
    ⟨0, by decide, rfl⟩

/-! ## Sighash version 1 (`btc_tx_sighash_v1`, src/tx.c) -/

/-- The sighash cache (`btc_tx_cache_t`): three 32-byte slots, each with
a presence bit, here an `Option` per slot. -/
structure btc_tx_cache where
  prevouts : Option (List Nat)
  sequences : Option (List Nat)
  outputs : Option (List Nat)
deriving DecidableEq, Repr

/-- The all-absent cache (`memset(&cache, 0, sizeof(cache))`). -/
def btc_cache_empty : btc_tx_cache := ⟨none, none, none⟩

/-- 32 zero bytes. -/
def zero32 : List Nat := List.replicate 32 0

/-- Digest of all input outpoints (`hashPrevouts`). -/
def btc_hash_prevouts (h256 : List Nat → List Nat) (tx : btc_tx) : List Nat :=
  h256 (tx.inputs.flatMap (fun i => btc_outpoint_write i.prevout))

/-- Digest of all input sequences (`hashSequences`). -/
def btc_hash_sequences (h256 : List Nat → List Nat) (tx : btc_tx) : List Nat :=
  h256 (tx.inputs.flatMap (fun i => w32 i.sequence))

/-- Digest of all outputs (`hashOutputs` for the ALL case). -/
def btc_hash_outputs_all (h256 : List Nat → List Nat) (tx : btc_tx) : List Nat :=
  h256 (tx.outputs.flatMap btc_output_write)

/-- The hashPrevouts block of `btc_tx_sighash_v1` (src/tx.c): zeros under
ANYONECANPAY; otherwise the cached digest when present, else computed and
stored in the cache when one was supplied. -/
def v1_prevouts (h256 : List Nat → List Nat) (tx : btc_tx) (ty : Nat)
    (cache : Option btc_tx_cache) : List Nat × Option btc_tx_cache :=
  if ty &&& BTC_SIGHASH_ANYONECANPAY = 0 then
    match cache with
    | some c =>
      match c.prevouts with
      | some p => (p, some c)
      | none =>
        (btc_hash_prevouts h256 tx, some { c with prevouts := some (btc_hash_prevouts h256 tx) })
    | none => (btc_hash_prevouts h256 tx, none)
  else (zero32, cache)

/-- The hashSequences block of `btc_tx_sighash_v1` (src/tx.c). -/
def v1_sequences (h256 : List Nat → List Nat) (tx : btc_tx) (ty : Nat)
    (cache : Option btc_tx_cache) : List Nat × Option btc_tx_cache :=
  if ty &&& BTC_SIGHASH_ANYONECANPAY = 0 ∧ ty &&& 31 ≠ BTC_SIGHASH_SINGLE ∧
      ty &&& 31 ≠ BTC_SIGHASH_NONE then
    match cache with
    | some c =>
      match c.sequences with
      | some p => (p, some c)
      | none =>
        (btc_hash_sequences h256 tx,
          some { c with sequences := some (btc_hash_sequences h256 tx) })
    | none => (btc_hash_sequences h256 tx, none)
  else (zero32, cache)

/-- The hashOutputs block of `btc_tx_sighash_v1` (src/tx.c): all outputs
(cached) unless SINGLE or NONE; for SINGLE, the digest of the single
output at the input index when it exists (never cached); zeros
otherwise. -/
def v1_outputs (h256 : List Nat → List Nat) (tx : btc_tx) (index : Nat) (ty : Nat)
    (cache : Option btc_tx_cache) : List Nat × Option btc_tx_cache :=
  if ty &&& 31 ≠ BTC_SIGHASH_SINGLE ∧ ty &&& 31 ≠ BTC_SIGHASH_NONE then
    match cache with
    | some c =>
      match c.outputs with
      | some p => (p, some c)
      | none =>
        (btc_hash_outputs_all h256 tx,
          some { c with outputs := some (btc_hash_outputs_all h256 tx) })
    | none => (btc_hash_outputs_all h256 tx, none)
  else if ty &&& 31 = BTC_SIGHASH_SINGLE then
    (if index < tx.outputs.length then h256 (btc_output_write (tx.outputs.getD index default))
     else zero32, cache)
  else (zero32, cache)

/-- `btc_tx_sighash_v1` (src/tx.c), parametric in the external
double-SHA-256; returns the digest together with the cache as left by the
call. -/
def btc_tx_sighash_v1 (h256 : List Nat → List Nat) (tx : btc_tx) (index : Nat)
    (prev : List Nat) (value : Int) (ty : Nat) (cache : Option btc_tx_cache) :
    List Nat × Option btc_tx_cache :=
  let input := tx.inputs.getD index default
  let (prevouts, cache) := v1_prevouts h256 tx ty cache
  let (sequences, cache) := v1_sequences h256 tx ty cache
  let (outs, cache) := v1_outputs h256 tx index ty cache
  (h256 (w32 tx.version ++ prevouts ++ sequences ++ btc_outpoint_write input.prevout
    ++ btc_script_write prev ++ wI64 value ++ w32 input.sequence ++ outs
    ++ w32 tx.locktime ++ w32 ty), cache)

/-- A cache is valid for `tx` when every present slot holds exactly the
digest the uncached code would compute for `tx`. -/
def btc_cache_valid (h256 : List Nat → List Nat) (tx : btc_tx) (c : btc_tx_cache) : Prop :=
  (∀ p, c.prevouts = some p → p = btc_hash_prevouts h256 tx) ∧
  (∀ p, c.sequences = some p → p = btc_hash_sequences h256 tx) ∧
  (∀ p, c.outputs = some p → p = btc_hash_outputs_all h256 tx)

theorem v1_prevouts_cached (h256 : List Nat → List Nat) (tx : btc_tx) (ty : Nat)
    (c : btc_tx_cache) (h : btc_cache_valid h256 tx c) :
    (v1_prevouts h256 tx ty (some c)).1 = (v1_prevouts h256 tx ty none).1 ∧
      ∀ c2, (v1_prevouts h256 tx ty (some c)).2 = some c2 → btc_cache_valid h256 tx c2 := by
  obtain ⟨hp, hs, ho⟩ := h
  unfold v1_prevouts
  split_ifs with g1
  · cases hc : c.prevouts with
    | some p =>
      simp only [hc]
      refine ⟨hp p hc, ?_⟩
      rintro c2 hc2
      simp only [Option.some.injEq] at hc2
      subst hc2
      exact ⟨hp, hs, ho⟩
    | none =>
      simp only [hc]
      refine ⟨by first | rfl | trivial, ?_⟩
      rintro c2 hc2
      simp only [Option.some.injEq] at hc2
      subst hc2
      refine ⟨?_, hs, ho⟩
      intro p hp2
      simp only [Option.some.injEq] at hp2
      exact hp2.symm
  · refine ⟨by first | rfl | trivial, ?_⟩
    rintro c2 hc2
    simp only [Option.some.injEq] at hc2
    subst hc2
    exact ⟨hp, hs, ho⟩

theorem v1_sequences_cached (h256 : List Nat → List Nat) (tx : btc_tx) (ty : Nat)
    (c : btc_tx_cache) (h : btc_cache_valid h256 tx c) :
    (v1_sequences h256 tx ty (some c)).1 = (v1_sequences h256 tx ty none).1 ∧
      ∀ c2, (v1_sequences h256 tx ty (some c)).2 = some c2 → btc_cache_valid h256 tx c2 := by
  obtain ⟨hp, hs, ho⟩ := h
  unfold v1_sequences
  split_ifs with g1
  · cases hc : c.sequences with
    | some p =>
      simp only [hc]
      refine ⟨hs p hc, ?_⟩
      rintro c2 hc2
      simp only [Option.some.injEq] at hc2
      subst hc2
      exact ⟨hp, hs, ho⟩
    | none =>
      simp only [hc]
      refine ⟨by first | rfl | trivial, ?_⟩
      rintro c2 hc2
      simp only [Option.some.injEq] at hc2
      subst hc2
      refine ⟨hp, ?_, ho⟩
      intro p hp2
      simp only [Option.some.injEq] at hp2
      exact hp2.symm
  · refine ⟨by first | rfl | trivial, ?_⟩
    rintro c2 hc2
    simp only [Option.some.injEq] at hc2
    subst hc2
    exact ⟨hp, hs, ho⟩

theorem v1_outputs_cached (h256 : List Nat → List Nat) (tx : btc_tx) (index ty : Nat)
    (c : btc_tx_cache) (h : btc_cache_valid h256 tx c) :
    (v1_outputs h256 tx index ty (some c)).1 = (v1_outputs h256 tx index ty none).1 ∧
      ∀ c2, (v1_outputs h256 tx index ty (some c)).2 = some c2 →
        btc_cache_valid h256 tx c2 := by
  obtain ⟨hp, hs, ho⟩ := h
  unfold v1_outputs
  split_ifs with g1 g2
  · cases hc : c.outputs with
    | some p =>
      simp only [hc]
      refine ⟨ho p hc, ?_⟩
      rintro c2 hc2
      simp only [Option.some.injEq] at hc2
      subst hc2
      exact ⟨hp, hs, ho⟩
    | none =>
      simp only [hc]
      refine ⟨by first | rfl | trivial, ?_⟩
      rintro c2 hc2
      simp only [Option.some.injEq] at hc2
      subst hc2
      refine ⟨hp, hs, ?_⟩
      intro p hp2
      simp only [Option.some.injEq] at hp2
      exact hp2.symm
  · refine ⟨by first | rfl | trivial, ?_⟩
    rintro c2 hc2
    simp only [Option.some.injEq] at hc2
    subst hc2
    exact ⟨hp, hs, ho⟩
  · refine ⟨by first | rfl | trivial, ?_⟩
    rintro c2 hc2
    simp only [Option.some.injEq] at hc2
    subst hc2
    exact ⟨hp, hs, ho⟩
  · refine ⟨by first | rfl | trivial, ?_⟩
    rintro c2 hc2
    simp only [Option.some.injEq] at hc2
    subst hc2
    exact ⟨hp, hs, ho⟩

theorem v1_prevouts_some (h256 : List Nat → List Nat) (tx : btc_tx) (ty : Nat)
    (c : btc_tx_cache) : ∃ c2, (v1_prevouts h256 tx ty (some c)).2 = some c2 := by
  unfold v1_prevouts
  split_ifs
  · cases hc : c.prevouts <;> simp [hc]
  · simp

theorem v1_sequences_some (h256 : List Nat → List Nat) (tx : btc_tx) (ty : Nat)
    (c : btc_tx_cache) : ∃ c2, (v1_sequences h256 tx ty (some c)).2 = some c2 := by
  unfold v1_sequences
  split_ifs
  · cases hc : c.sequences <;> simp [hc]
  · simp

theorem v1_outputs_some (h256 : List Nat → List Nat) (tx : btc_tx) (index ty : Nat)
    (c : btc_tx_cache) : ∃ c2, (v1_outputs h256 tx index ty (some c)).2 = some c2 := by
  unfold v1_outputs
  split_ifs
  · cases hc : c.outputs <;> simp [hc]
  · simp
  · simp
  · simp

theorem v1_prevouts_none (h256 : List Nat → List Nat) (tx : btc_tx) (ty : Nat) :
    (v1_prevouts h256 tx ty none).2 = none := by
  unfold v1_prevouts
  split_ifs <;> rfl

theorem v1_sequences_none (h256 : List Nat → List Nat) (tx : btc_tx) (ty : Nat) :
    (v1_sequences h256 tx ty none).2 = none := by
  unfold v1_sequences
  split_ifs <;> rfl

theorem v1_outputs_none (h256 : List Nat → List Nat) (tx : btc_tx) (index ty : Nat) :
    (v1_outputs h256 tx index ty none).2 = none := by
  unfold v1_outputs
  split_ifs <;> rfl

/-! ### Claim C8 -/

/-- C8: the fresh cache is valid; for every valid cache (fresh, or left
by earlier sighash-v1 calls on the same transaction at any index and
type), the segwit sighash with the cache equals the sighash with no
cache, and the cache the call leaves behind is again valid. -/
theorem claim_C8 (h256 : List Nat → List Nat) (tx : btc_tx) :
    btc_cache_valid h256 tx btc_cache_empty ∧
    ∀ index : Nat, ∀ prev : List Nat, ∀ value : Int, ∀ ty : Nat, ∀ c : btc_tx_cache,
      btc_cache_valid h256 tx c →
      ((btc_tx_sighash_v1 h256 tx index prev value ty (some c)).1 =
        (btc_tx_sighash_v1 h256 tx index prev value ty none).1 ∧
       ∀ c2, (btc_tx_sighash_v1 h256 tx index prev value ty (some c)).2 = some c2 →
         btc_cache_valid h256 tx c2) := by
  constructor
  · refine ⟨?_, ?_, ?_⟩ <;> (intro p hp; simp [btc_cache_empty] at hp)
  intro index prev value ty c hvalid
  obtain ⟨heq1, hval1all⟩ := v1_prevouts_cached h256 tx ty c hvalid
  obtain ⟨c1, hc1⟩ := v1_prevouts_some h256 tx ty c
  have hval1 := hval1all c1 hc1
  obtain ⟨heq2, hval2all⟩ := v1_sequences_cached h256 tx ty c1 hval1
  obtain ⟨c2, hc2⟩ := v1_sequences_some h256 tx ty c1
  have hval2 := hval2all c2 hc2
  obtain ⟨heq3, hval3all⟩ := v1_outputs_cached h256 tx index ty c2 hval2
  obtain ⟨c3, hc3⟩ := v1_outputs_some h256 tx index ty c2
  have hval3 := hval3all c3 hc3
  set n1 := (v1_prevouts h256 tx ty none).1 with hn1
  set n2 := (v1_sequences h256 tx ty none).1 with hn2
  set n3 := (v1_outputs h256 tx index ty none).1 with hn3
  have hpair1 : v1_prevouts h256 tx ty (some c) = (n1, some c1) :=
    Prod.ext_iff.mpr ⟨heq1, hc1⟩
  have hpair1n : v1_prevouts h256 tx ty none = (n1, none) :=
    Prod.ext_iff.mpr ⟨hn1.symm, v1_prevouts_none h256 tx ty⟩
  have hpair2 : v1_sequences h256 tx ty (some c1) = (n2, some c2) :=
    Prod.ext_iff.mpr ⟨heq2, hc2⟩
  have hpair2n : v1_sequences h256 tx ty none = (n2, none) :=
    Prod.ext_iff.mpr ⟨hn2.symm, v1_sequences_none h256 tx ty⟩
  have hpair3 : v1_outputs h256 tx index ty (some c2) = (n3, some c3) :=
    Prod.ext_iff.mpr ⟨heq3, hc3⟩
  have hpair3n : v1_outputs h256 tx index ty none = (n3, none) :=
    Prod.ext_iff.mpr ⟨hn3.symm, v1_outputs_none h256 tx index ty⟩
  refine ⟨?_, ?_⟩
  · simp only [btc_tx_sighash_v1, hpair1, hpair1n, hpair2, hpair2n, hpair3, hpair3n]
  · simp only [btc_tx_sighash_v1, hpair1, hpair2, hpair3]
    rintro c4 hc4
    simp only [Option.some.injEq] at hc4
    subst hc4
    exact hval3

/-- Example transaction for the claim C8 witness. -/
def txC8ex : btc_tx :=
  ⟨2, [⟨⟨List.replicate 32 4, 2⟩, [1, 2], 5, [[1]]⟩], [⟨7, [3]⟩], 8⟩

/-- Witness for C8: the cached and uncached sighashes agree at a concrete
transaction and an already-populated (valid) cache. -/
theorem claim_C8_witness :
    btc_cache_valid (fun _ => zero32) txC8ex
        ⟨some (btc_hash_prevouts (fun _ => zero32) txC8ex), none, none⟩ ∧
      (btc_tx_sighash_v1 (fun _ => zero32) txC8ex 0 [9] 7 1
          (some ⟨some (btc_hash_prevouts (fun _ => zero32) txC8ex), none, none⟩)).1 =
        (btc_tx_sighash_v1 (fun _ => zero32) txC8ex 0 [9] 7 1 none).1 := by
  have hv : btc_cache_valid (fun _ => zero32) txC8ex
      ⟨some (btc_hash_prevouts (fun _ => zero32) txC8ex), none, none⟩ := by
    refine ⟨?_, ?_, ?_⟩ <;> intro p hp <;> simp_all
  exact ⟨hv, ((claim_C8 (fun _ => zero32) txC8ex).2 0 [9] 7 1 _ hv).1⟩

/-! ## Compact block reconstruction (src/bip152.c)

The fields of `btc_cmpct_t` that the reconstruction state machine reads
and writes: the short ids, the prefilled transactions (each carrying its
differential `_index`), the `avail` slot array, the filled-slot count and
the short-id position map. -/

structure btc_cmpct where
  ids : List Nat
  ptx : List (Nat × btc_tx)
  avail : List (Option btc_tx)
  count : Nat
  id_map : List (Nat × Nat)
deriving DecidableEq, Repr

/-- Result of `btc_cmpct_setup` (src/bip152.c): the C function returns
-1 (malformed), 0 (siphash collision) or 1 (success, with the block
state updated). -/
inductive btc_cmpct_result where
  | malformed : btc_cmpct_result
  | collision : btc_cmpct_result
  | ok : btc_cmpct → btc_cmpct_result
deriving DecidableEq, Repr

/-- Modelled from the spec: hash-map insert of the consumed map library
(`btc_longtab_put`); fails exactly when the key is already present. -/
def btc_longtab_put (m : List (Nat × Nat)) (k v : Nat) : Option (List (Nat × Nat)) :=
  if (m.find? (fun e => e.1 == k)).isSome then none else some (m ++ [(k, v)])

/-- One iteration of the prefilled-placement loop of `btc_cmpct_setup`
(src/bip152.c): advance the running cursor by `_index + 1`, reject a
cursor that is negative, above 0xFFFF or strictly above
`ids.length + i`, and otherwise store the transaction at the cursor
position and bump the count. -/
def btc_cmpct_place_step (idsLen i : Nat) (last : Int) (idx : Nat) (tx : btc_tx)
    (avail : List (Option btc_tx)) (count : Nat) :
    Option (List (Option btc_tx) × Nat × Int) :=
  let last := last + idx + 1
  if last < 0 ∨ last > 65535 then none
  else if (idsLen + i : Int) < last then none
  else some (avail.set last.toNat (some tx), count + 1, last)

/-- The prefilled-placement loop of `btc_cmpct_setup` (src/bip152.c). -/
def btc_cmpct_place_loop (idsLen : Nat) :
    List (Nat × btc_tx) → Nat → Int → List (Option btc_tx) → Nat →
      Option (List (Option btc_tx) × Nat × Int)
  | [], _, last, avail, count => some (avail, count, last)
  | (idx, tx) :: rest, i, last, avail, count =>
    match btc_cmpct_place_step idsLen i last idx tx avail count with
    | none => none
    | some (avail, count, last) => btc_cmpct_place_loop idsLen rest (i + 1) last avail count

/-- Helper for the while loop inside the id-insertion pass of
`btc_cmpct_setup` (src/bip152.c): scan the slot suffix, advancing the
position past filled slots. -/
def skip_go : List (Option btc_tx) → Nat → Nat
  | [], k => k
  | none :: _, k => k
  | some _ :: rest, k => skip_go rest (k + 1)

/-- The while loop inside the id-insertion pass of `btc_cmpct_setup`
(src/bip152.c): advance past already-filled slots starting at `k`. -/
def skip_filled (avail : List (Option btc_tx)) (k : Nat) : Nat :=
  skip_go (avail.drop k) k

/-- The id-insertion pass of `btc_cmpct_setup` (src/bip152.c): compute
each short id's absolute slot and insert it into the position map; a
duplicate id is a siphash collision. -/
def btc_cmpct_insert_ids (avail : List (Option btc_tx)) :
    List Nat → Nat → Nat → List (Nat × Nat) → Option (List (Nat × Nat))
  | [], _, _, m => some m
  | id :: rest, i, offset, m =>
    let p := skip_filled avail (i + offset)
    match btc_longtab_put m id p with
    | none => none
    | some m => btc_cmpct_insert_ids avail rest (i + 1) (p - i) m

/-- `btc_cmpct_setup` (src/bip152.c). -/
def btc_cmpct_setup (blk : btc_cmpct) : btc_cmpct_result :=
  let total := blk.ptx.length + blk.ids.length
  if total = 0 then .malformed
  else if total > BTC_MAX_BLOCK_SIZE / 10 then .malformed
  else if total > (BTC_MAX_BLOCK_SIZE - 81) / 60 then .malformed
  else
    let avail := List.replicate total (none : Option btc_tx)
    match btc_cmpct_place_loop blk.ids.length blk.ptx 0 (-1) avail 0 with
    | none => .malformed
    | some (avail, count, _) =>
      match btc_cmpct_insert_ids avail blk.ids 0 0 [] with
      | none => .collision
      | some m => .ok { blk with avail := avail, count := count, id_map := m }

/-- The slot-filling loop of `btc_cmpct_fill_missing` (src/bip152.c):
walk the slots left to right, consuming one response transaction per
empty slot; if the response runs out with an empty slot remaining the
loop stops early (the C function returns 0 with the state as mutated so
far); at the end the call succeeds iff the whole response was consumed. -/
def btc_cmpct_fill_go : List (Option btc_tx) → List btc_tx → Nat →
    Bool × List (Option btc_tx) × Nat
  | [], txs, count => (txs.isEmpty, [], count)
  | some t :: rest, txs, count =>
    let (ok, avail, count) := btc_cmpct_fill_go rest txs count
    (ok, some t :: avail, count)
  | none :: rest, [], count => (false, none :: rest, count)
  | none :: rest, t :: txs, count =>
    let (ok, avail, count) := btc_cmpct_fill_go rest txs (count + 1)
    (ok, some t :: avail, count)

/-- `btc_cmpct_fill_missing` (src/bip152.c): fill the empty slots from
the BlockTxn response `txs`; result flag true means success (1 in C),
false failure (0 in C). -/
def btc_cmpct_fill_missing (blk : btc_cmpct) (txs : List btc_tx) : Bool × btc_cmpct :=
  let (ok, avail, count) := btc_cmpct_fill_go blk.avail txs blk.count
  (ok, { blk with avail := avail, count := count })

/-- Number of empty slots. -/
def countNone (avail : List (Option btc_tx)) : Nat :=
  (avail.filter (fun s => s.isNone)).length

/-- Number of filled slots. -/
def countSome (avail : List (Option btc_tx)) : Nat :=
  (avail.filter (fun s => s.isSome)).length

theorem btc_cmpct_fill_go_spec (avail : List (Option btc_tx)) (txs : List btc_tx)
    (count : Nat) :
    ((btc_cmpct_fill_go avail txs count).1 = true ↔ txs.length = countNone avail) ∧
    ((btc_cmpct_fill_go avail txs count).1 = true →
      (btc_cmpct_fill_go avail txs count).2.2 = count + countNone avail) := by
  induction avail generalizing txs count with
  | nil =>
    simp [btc_cmpct_fill_go, countNone, List.isEmpty_iff, List.length_eq_zero]
  | cons slot rest ih =>
    cases slot with
    | some t =>
      have := ih txs count
      simp only [btc_cmpct_fill_go, countNone, List.filter_cons, Option.isNone_some,
        Bool.false_eq_true, if_false] at *
      exact this
    | none =>
      cases txs with
      | nil =>
        simp [btc_cmpct_fill_go, countNone, List.filter_cons]
      | cons t ts =>
        have := ih ts (count + 1)
        simp only [btc_cmpct_fill_go, countNone, List.filter_cons, Option.isNone_none,
          if_true, List.length_cons] at *
        constructor
        · constructor
          · intro hb
            have := this.1.mp hb
            omega
          · intro hl
            exact this.1.mpr (by omega)
        · intro hb
          have h2 := this.2 hb
          rw [h2]
          omega

theorem countSome_add_countNone (l : List (Option btc_tx)) :
    countSome l + countNone l = l.length := by
  induction l with
  | nil => rfl
  | cons s rest ih =>
    cases s <;> simp [countSome, countNone, List.filter_cons] at * <;> omega

theorem btc_cmpct_fill_missing_eq (blk : btc_cmpct) (txs : List btc_tx) :
    btc_cmpct_fill_missing blk txs =
      ((btc_cmpct_fill_go blk.avail txs blk.count).1,
        { blk with avail := (btc_cmpct_fill_go blk.avail txs blk.count).2.1,
                   count := (btc_cmpct_fill_go blk.avail txs blk.count).2.2 }) := rfl

/-! ### Claim C2 -/

/-- C2 (amended): under the function's entry invariant
(`avail.length == total`, `count` = number of filled slots), the fill
succeeds — returns 1 — exactly when the response has as many transactions
as there are empty slots, and then `count == total` afterwards.  A
response with too few transactions and one with too many both return the
same failure value 0: the code does not distinguish "incomplete" from
"malformed". -/
theorem claim_C2 (blk : btc_cmpct) (txs : List btc_tx)
    (hlen : blk.avail.length = blk.ptx.length + blk.ids.length)
    (hcount : blk.count = countSome blk.avail) :
    ((btc_cmpct_fill_missing blk txs).1 = true ↔ txs.length = countNone blk.avail) ∧
    ((btc_cmpct_fill_missing blk txs).1 = true →
      (btc_cmpct_fill_missing blk txs).2.count = blk.ptx.length + blk.ids.length) := by
  have h := btc_cmpct_fill_go_spec blk.avail txs blk.count
  have hsum := countSome_add_countNone blk.avail
  rw [btc_cmpct_fill_missing_eq]
  constructor
  · exact h.1
  · intro hb
    have h2 := h.2 hb
    simp only []
    rw [h2]
    omega

/-- Example compact-block state for claim C2: one short id, no prefilled
transactions, one empty slot. -/
def blkC2w : btc_cmpct := ⟨[7], [], [none], 0, []⟩

/-- Example transaction for claim C2. -/
def txC2w : btc_tx := ⟨1, [], [], 3⟩

/-- Witness for C2 (amended): filling the single empty slot with a
one-transaction response succeeds. -/
theorem claim_C2_witness :
    (blkC2w.avail.length = blkC2w.ptx.length + blkC2w.ids.length ∧
      blkC2w.count = countSome blkC2w.avail) ∧
    (btc_cmpct_fill_missing blkC2w [txC2w]).1 = true :=
  ⟨⟨by decide, by decide⟩,
    (claim_C2 blkC2w [txC2w] (by decide) (by decide)).1.mpr (by decide)⟩

/-- Counterexample to C2 as stated: with one empty slot, a response with
zero transactions ("fewer than needed") and a response with two
transactions ("more than needed") both return the same value 0 — there is
no distinct "malformed" result. -/
theorem claim_C2_cx :
    (btc_cmpct_fill_missing blkC2w []).1 = false ∧
      (btc_cmpct_fill_missing blkC2w [txC2w, txC2w]).1 = false := by
  constructor
  · decide
  · decide

/-! ### Claim C3 -/

/-- C3 (amended): one placement step of `setup` rejects ("malformed")
exactly when the advanced cursor `last + _index + 1` is negative, above
0xFFFF, or strictly above `ids.length + i`; otherwise it stores the
prefilled transaction at the cursor position and increments the count.
(The spec's condition `last ≥ ids.length + i` is wrong: position
`ids.length + i` itself is accepted.) -/
theorem claim_C3 (idsLen i : Nat) (last : Int) (idx : Nat) (tx : btc_tx)
    (avail : List (Option btc_tx)) (count : Nat) :
    (btc_cmpct_place_step idsLen i last idx tx avail count = none ↔
      (last + idx + 1 < 0 ∨ last + idx + 1 > 65535 ∨
        (idsLen + i : Int) < last + idx + 1)) ∧
    (∀ res, btc_cmpct_place_step idsLen i last idx tx avail count = some res →
      res = (avail.set (last + idx + 1).toNat (some tx), count + 1, last + idx + 1)) := by
  unfold btc_cmpct_place_step
  simp only []
  split_ifs with g1 g2
  · constructor
    · simp only [true_iff]
      rcases g1 with g1 | g1
      · exact Or.inl g1
      · exact Or.inr (Or.inl g1)
    · intro res hres
      exact absurd hres (by simp)
  · constructor
    · simp only [true_iff]
      exact Or.inr (Or.inr g2)
    · intro res hres
      exact absurd hres (by simp)
  · constructor
    · constructor
      · intro h
        exact absurd h (by simp)
      · intro hd
        push_neg at g1
        rcases hd with hd | hd | hd <;> omega
    · intro res hres
      simp only [Option.some.injEq] at hres
      exact hres.symm

/-- Example transaction for claim C3. -/
def txC3ex : btc_tx := ⟨1, [], [], 4⟩

/-- Witness for C3 (amended): at `ids.length = 1`, `i = 0`, cursor
`last = -1` and `_index = 0` the step is not rejected. -/
theorem claim_C3_witness :
    btc_cmpct_place_step 1 0 (-1) 0 txC3ex [none, none] 0 ≠ none := by
  intro h
  have hd := (claim_C3 1 0 (-1) 0 txC3ex [none, none] 0).1.mp h
  revert hd
  decide

/-- Counterexample compact block for C3: one short id and one prefilled
transaction with `_index = 1`, so the cursor lands exactly on
`ids.length + i = 1`. -/
def blkC3cx : btc_cmpct := ⟨[7], [(1, txC3ex)], [], 0, []⟩

/-- Counterexample to C3 as stated: with `last = ids.length + i` (claimed
malformed) the code accepts the placement and `setup` succeeds. -/
theorem claim_C3_cx :
    btc_cmpct_setup blkC3cx =
      btc_cmpct_result.ok ⟨[7], [(1, txC3ex)], [none, some txC3ex], 1, [(7, 0)]⟩ := by
  decide

/-! ## Chain store disconnect (`btc_chaindb_disconnect_block`,
src/node/chaindb.c) -/

/-- Modelled from the spec: a view is a mapping from outpoints to coins
(`btc_view_t` of the consumed coins module); represented as an
association list in insertion order. -/
def btc_view : Type := List (btc_outpoint × btc_coin)

instance : DecidableEq btc_view :=
  inferInstanceAs (DecidableEq (List (btc_outpoint × btc_coin)))

/-- Modelled from the spec: the empty view (`btc_view_create`). -/
def btc_view_create : btc_view := []

/-- Modelled from the spec: `btc_view_put` binds an outpoint to a coin,
replacing any previous binding. -/
def btc_view_put (view : btc_view) (op : btc_outpoint) (coin : btc_coin) : btc_view :=
  match view with
  | [] => [(op, coin)]
  | (op2, c2) :: rest =>
    if op2 = op then (op, coin) :: rest else (op2, c2) :: btc_view_put rest op coin

/-- Modelled from the spec: `btc_view_get` looks an outpoint up in the
view. -/
def btc_view_get (view : btc_view) (op : btc_outpoint) : Option btc_coin :=
  match view with
  | [] => none
  | (op2, c2) :: rest => if op2 = op then some c2 else btc_view_get rest op

/-- `btc_tx_txid` (src/tx.c): double-SHA-256 of the non-witness
serialization, parametric in the external hash. -/
def btc_tx_txid (h256 : List Nat → List Nat) (tx : btc_tx) : List Nat :=
  h256 (btc_tx_base_write tx)

/-- Modelled from the spec: `btc_view_add view tx height spent` puts one
coin per output of `tx` at outpoint `(txid tx, index)`, carrying the
spent flag (a spent coin is a tombstone deleted on commit). -/
def btc_view_add (h256 : List Nat → List Nat) (view : btc_view) (tx : btc_tx)
    (height : Nat) (spent : Bool) : btc_view :=
  (List.range tx.outputs.length).foldl
    (fun v index =>
      btc_view_put v ⟨btc_tx_txid h256 tx, index⟩
        ⟨tx.version, height, btc_tx_is_coinbase tx = true, spent,
          tx.outputs.getD index default⟩)
    view

/-- The inner (input) loop of `btc_chaindb_disconnect_block`
(src/node/chaindb.c).  The C code reads `tx->inputs.items[i]` with `i`
the OUTER transaction index — not the inner loop variable `j` — so every
popped coin is stored at the prevout of input number `i` of the
transaction.  The loop pops one coin per input, in reverse input order;
popping from an empty undo stack is the fatal `btc_undo_pop` underflow,
modelled as `none`. -/
def btc_disconnect_inputs (tx : btc_tx) (i : Nat) :
    List Nat → List btc_coin → btc_view → Option (btc_view × List btc_coin)
  | [], undo, view => some (view, undo)
  | _ :: js, undo, view =>
    match undo with
    | [] => none
    | coin :: undo =>
      btc_disconnect_inputs tx i js
        undo (btc_view_put view (tx.inputs.getD i default).prevout coin)

/-- The outer (transaction) loop of `btc_chaindb_disconnect_block`
(src/node/chaindb.c), over the block's transactions in reverse order,
each paired with its index `i`; after restoring the inputs the
transaction's own outputs are added as spent tombstones. -/
def btc_disconnect_txs (h256 : List Nat → List Nat) (height : Nat) :
    List (Nat × btc_tx) → List btc_coin → btc_view → Option (btc_view × List btc_coin)
  | [], undo, view => some (view, undo)
  | (i, tx) :: rest, undo, view =>
    match btc_disconnect_inputs tx i (List.range tx.inputs.length).reverse undo view with
    | none => none
    | some (view, undo) =>
      btc_disconnect_txs h256 height rest undo (btc_view_add h256 view tx height true)

/-- `btc_chaindb_disconnect_block` (src/node/chaindb.c), reduced to the
view it builds: the undo stack is given topmost-coin-first (the last coin
pushed during connect is popped first); the trailing
`CHECK(undo->length == 0)` is the final guard. -/
def btc_chaindb_disconnect_block (h256 : List Nat → List Nat) (block : List btc_tx)
    (height : Nat) (undo : List btc_coin) : Option btc_view :=
  match btc_disconnect_txs h256 height block.enum.reverse undo btc_view_create with
  | none => none
  | some (view, undo) => if undo = [] then some view else none

/-! ### Claim C1 -/

/-- First spent outpoint of the C1 failing block. -/
def opC1a : btc_outpoint := ⟨List.replicate 32 10, 0⟩

/-- Second spent outpoint of the C1 failing block. -/
def opC1b : btc_outpoint := ⟨List.replicate 32 11, 3⟩

/-- Coin spent by input 0 of the C1 failing transaction. -/
def coinC1a : btc_coin := ⟨1, 50, false, false, ⟨100, [1]⟩⟩

/-- Coin spent by input 1 of the C1 failing transaction. -/
def coinC1b : btc_coin := ⟨1, 60, false, false, ⟨200, [2]⟩⟩

/-- The C1 failing block: transaction 0 has no inputs, transaction 1
spends `opC1a` (input 0) and `opC1b` (input 1). -/
def blockC1 : List btc_tx :=
  [⟨1, [], [], 0⟩,
   ⟨1, [⟨opC1a, [], 0, []⟩, ⟨opC1b, [], 1, []⟩], [], 0⟩]

/-- The undo log written when `blockC1` was connected: the coins spent by
the non-coinbase inputs in connect order, so the stack (topmost first) is
`[coinC1b, coinC1a]`. -/
def undoC1 : List btc_coin := [coinC1b, coinC1a]

/-- C1 is violated by the code: disconnecting `blockC1` builds a view
that leaves `opC1a` (spent by input 0 of transaction 1) without any
restored coin and binds `opC1b` to the WRONG coin (`coinC1a`, the coin
of input 0), because the inner loop indexes `tx->inputs.items[i]` with
the outer transaction index instead of the inner loop variable `j`.  The
claim requires `opC1a ↦ coinC1a` and `opC1b ↦ coinC1b`. -/
theorem claim_C1 :
    (∃ v, btc_chaindb_disconnect_block (fun _ => []) blockC1 70 undoC1 = some v ∧
      btc_view_get v opC1a = none ∧ btc_view_get v opC1b = some coinC1a) ∧
    coinC1a ≠ coinC1b := by
  constructor
  · refine ⟨[(opC1b, coinC1a)], ?_, ?_, ?_⟩
    · decide
    · decide
    · decide
  · decide

end Mako
